import Mathlib

/-!
Verification of the ccbackup sensitive-data engine and archive pipeline.

Shallow embedding of `src/ccbackup.py`.  Text is modelled as `List Char`.
The eight entries of `SENSITIVE_PATTERNS` fall into two shapes:

* seven key-value regexes of the form `"KEY"\s*:\s*"([^"]+)"`, and
* one bare-token regex `sk-ant-[a-zA-Z0-9\-_]+`.

Both shapes are deterministic: every quantifier in them is a greedy run over
a character class that excludes the character required next (`\s*` is
followed by `:` or `"`, `[^"]+` by `"`, and the token run has no required
successor), so Python's backtracking regex engine behaves exactly like a
maximal-munch scanner on them.  `re.sub` / `re.findall` scan left to right,
taking the leftmost match and resuming after its end (matches never overlap),
which is what the recursive scanners below implement.  Python's `\s` is
modelled by its ASCII members; the inputs appearing in the development only
use the space character.
-/

namespace CCBackup

/-- Text, as the Python code's `str` restricted to its character list. -/
abbrev Str := List Char

/-- ASCII members of Python's regex class `\s`. -/
def isWs (c : Char) : Bool :=
  c = ' ' || c = '\t' || c = '\n' || c = '\r' || c = '\x0b' || c = '\x0c'

/-- Character class `[a-zA-Z0-9\-_]` of the `sk-ant-` token pattern. -/
def isTokChar (c : Char) : Bool :=
  ('a' ≤ c && c ≤ 'z') || ('A' ≤ c && c ≤ 'Z') || ('0' ≤ c && c ≤ '9') ||
    c = '-' || c = '_'

/-- Strip a literal prefix: `some r` when `s = pre ++ r`, else `none`. -/
def stripLit : Str → Str → Option Str
  | [], s => some s
  | _ :: _, [] => none
  | c :: cs, x :: xs => if x = c then stripLit cs xs else none

/-- One `SENSITIVE_PATTERNS` entry: a key-value regex
`"KEY"\s*:\s*"([^"]+)"` carrying its key literal, or the bare
`sk-ant-[a-zA-Z0-9\-_]+` token regex.  Each carries its pattern name. -/
inductive Pat where
  | kv (key name : Str)
  | tok (name : Str)
  deriving DecidableEq

/-- Name of a pattern (second component of the Python tuples). -/
def patName : Pat → Str
  | .kv _ n => n
  | .tok n => n

/-- The `SENSITIVE_PATTERNS` table of `ccbackup.py`, in source order. -/
def SENSITIVE_PATTERNS : List Pat :=
  [ .kv ("ANTHROPIC_AUTH_TOKEN".toList) ("ANTHROPIC_AUTH_TOKEN".toList)
  , .kv ("ANTHROPIC_API_KEY".toList) ("ANTHROPIC_API_KEY".toList)
  , .kv ("api_key".toList) ("api_key".toList)
  , .kv ("apiKey".toList) ("apiKey".toList)
  , .kv ("bark_key".toList) ("bark_key".toList)
  , .kv ("token".toList) ("token".toList)
  , .kv ("secret".toList) ("secret".toList)
  , .tok ("anthropic_token".toList) ]

/-- Attempt the key-value regex `"KEY"\s*:\s*"([^"]+)"` at the head of `s`.
Returns `(full match, captured group, rest of the text)`. -/
def matchKV (key : Str) (s : Str) : Option (Str × Str × Str) :=
  match stripLit ('"' :: key ++ ['"']) s with
  | none => none
  | some r1 =>
    match r1.dropWhile isWs with
    | ':' :: r3 =>
      match r3.dropWhile isWs with
      | '"' :: r5 =>
        match r5.takeWhile (fun c => !(c = '"')),
              r5.dropWhile (fun c => !(c = '"')) with
        | v :: vs, '"' :: rest =>
          some ('"' :: key ++ '"' :: r1.takeWhile isWs ++
                  ':' :: r3.takeWhile isWs ++ '"' :: (v :: vs) ++ ['"'],
                v :: vs, rest)
        | _, _ => none
      | _ => none
    | _ => none

/-- Attempt the bare-token regex `sk-ant-[a-zA-Z0-9\-_]+` at the head of
`s`.  Returns `(full match, rest of the text)`. -/
def matchTok (s : Str) : Option (Str × Str) :=
  match stripLit ("sk-ant-".toList) s with
  | none => none
  | some r1 =>
    match r1.takeWhile isTokChar with
    | [] => none
    | run => some (("sk-ant-".toList) ++ run, r1.dropWhile isTokChar)

/-- Attempt a pattern at the head of `s`.  Returns the full match, the
captured group when the pattern has one, and the rest of the text. -/
def tryMatch (p : Pat) (s : Str) : Option (Str × Option Str × Str) :=
  match p with
  | .kv key _ =>
    match matchKV key s with
    | some (full, v, rest) => some (full, some v, rest)
    | none => none
  | .tok _ =>
    match matchTok s with
    | some (full, rest) => some (full, none, rest)
    | none => none

/-- Python `str.upper` on the characters appearing in pattern names
(ASCII letters and underscores). -/
def upper (s : Str) : Str := s.map Char.toUpper

/-- The redaction placeholder `<YOUR_{NAME_UPPERCASED}>` built by
`sanitize_content.replace_match`. -/
def placeholder (name : Str) : Str :=
  ("<YOUR_".toList) ++ upper name ++ (">".toList)

/-- Python `str.replace` with a non-empty needle `n1 :: ns`: replace every
non-overlapping occurrence, scanning left to right.  The scanner consumes at
least one character per step, so recursion is on a fuel bounded below by the
text length; `replaceStr` instantiates the fuel with the text length. -/
def replaceFrom (n1 : Char) (ns repl : Str) : Nat → Str → Str
  | 0, hay => hay
  | _ + 1, [] => []
  | fuel + 1, c :: cs =>
    match stripLit (n1 :: ns) (c :: cs) with
    | some rest => repl ++ replaceFrom n1 ns repl fuel rest
    | none => c :: replaceFrom n1 ns repl fuel cs

/-- Python `str.replace needle repl`.  The empty-needle case never arises in
`ccbackup.py` (the needle is a `([^"]+)` capture); it is mapped to the
identity. -/
def replaceStr (needle repl hay : Str) : Str :=
  match needle with
  | [] => hay
  | n1 :: ns => replaceFrom n1 ns repl hay.length hay

/-- The `replace_match` closure inside `sanitize_content`: for the pattern
named `anthropic_token` (the only group-free pattern) the whole match
becomes the placeholder; for key-value patterns the code calls
`full_match.replace(m.group(1), placeholder)`, replacing every occurrence
of the captured value inside the matched span.  A key-value match always
captures, so the `none` arm is unreachable on the registry. -/
def replace_match (name : Str) (full : Str) (g : Option Str) : Str :=
  if name = ("anthropic_token".toList) then placeholder name
  else
    match g with
    | some v => replaceStr v (placeholder name) full
    | none => full

/-- Embedding of `re.sub(pattern, replace_match, text)`: scan left to right, replace each
leftmost match and resume after it.  Fuel-indexed scanner; every step
consumes at least one character. -/
def subPatF (p : Pat) : Nat → Str → Str
  | 0, s => s
  | _ + 1, [] => []
  | fuel + 1, c :: cs =>
    match tryMatch p (c :: cs) with
    | some (full, g, rest) =>
      replace_match (patName p) full g ++ subPatF p fuel rest
    | none => c :: subPatF p fuel cs

/-- Embedding of `re.sub` of one pattern over a whole text. -/
def subPat (p : Pat) (s : Str) : Str :=
  subPatF p s.length s

/-- Embedding of `sanitize_content` of `ccbackup.py`: fold the substitution of every
pattern, in registry order, over the text. -/
def sanitize_content (content : Str) : Str :=
  SENSITIVE_PATTERNS.foldl (fun s p => subPat p s) content

/-- Embedding of `re.findall(pattern, content)`: the captured group for the one-group
key-value patterns, the whole match for the group-free token pattern, for
every non-overlapping match scanning left to right.  Fuel-indexed. -/
def findPatF (p : Pat) : Nat → Str → List Str
  | 0, _ => []
  | _ + 1, [] => []
  | fuel + 1, c :: cs =>
    match tryMatch p (c :: cs) with
    | some (full, g, rest) => g.getD full :: findPatF p fuel rest
    | none => findPatF p fuel cs

/-- Embedding of `re.findall` of one pattern over a whole text. -/
def findPat (p : Pat) (s : Str) : List Str :=
  findPatF p s.length s

/-- The filter of `detect_sensitive_in_file`: keep a candidate value when it
is non-empty, does not start with `<` and does not end with `>`. -/
def keepFinding (v : Str) : Bool :=
  !v.isEmpty && !(v.head? = some '<') && !(v.getLast? = some '>')

/-- The pattern loop of `detect_sensitive_in_file`: for each pattern in
registry order, every kept `findall` candidate becomes a
`(pattern name, matched value)` finding. -/
def detect_findings (content : Str) : List (Str × Str) :=
  SENSITIVE_PATTERNS.foldl
    (fun acc p =>
      acc ++ ((findPat p content).filter keepFinding).map
        (fun v => (patName p, v)))
    []

/-- Embedding of `detect_sensitive_in_file`, with the file system abstracted to the
decoded content: a missing, non-regular or undecodable file is `none` and
yields no findings; otherwise the pattern loop runs on the content. -/
def detect_sensitive_in_file : Option Str → List (Str × Str)
  | none => []
  | some content => detect_findings content

/-!
Archive-assembly pipeline (`create_backup`).

`create_backup` is I/O-bound; it is embedded as a function from an abstract
environment (which files exist under `~/.claude`, run metadata, and where, if
anywhere, an unrecoverable I/O error strikes) to the observable result: the
returned pair or the propagated exception, whether a staging directory was
ever created, whether one is left on disk after the call (the `finally`
block), the manifest written into the staging area, and the entry names of
the resulting archive.  The body is a `try/finally` with no `except`:
exceptions raised inside the `try` block propagate to the caller after the
`finally` cleanup runs.
-/

/-- The staging directory path `/tmp/ccbackup_{timestamp}` computed from
`datetime.now().strftime("%Y%m%d_%H%M%S")` (one-second resolution). -/
def temp_dir (timestamp : Str) : Str :=
  ("/tmp/ccbackup_".toList) ++ timestamp

/-- Result of an invocation: the returned `(success, message)` pair, or an
exception that propagated out of the function. -/
inductive Outcome where
  | returned (success : Bool) (message : Str)
  | raised (error : Str)
  deriving DecidableEq

/-- Where, if anywhere, an unrecoverable I/O error strikes inside the `try`
block of `create_backup`. -/
inductive FailPoint where
  | noFailure
  | mkdirTemp
  | staging
  | writingManifest
  | compressing
  deriving DecidableEq

/-- Abstract environment of one `create_backup` invocation: the state of the
source tree, run metadata, and the invocation's I/O fate. -/
structure BackupEnv where
  claudeDirExists : Bool
  claudeDirPath : Str
  hasClaudeMd : Bool
  hasSettings : Bool
  skillsFiles : List Str
  hasInstalledPlugins : Bool
  hasKnownMarketplaces : Bool
  hasHistoryFile : Bool
  projectsFiles : List Str
  hostname : Str
  username : Str
  platformName : Str
  createdAt : Str
  timestamp : Str
  ioErrorMsg : Str
  failPoint : FailPoint
  deriving DecidableEq

/-- The manifest dictionary written as `manifest.json`. -/
structure Manifest where
  version : Str
  created_at : Str
  hostname : Str
  username : Str
  platform : Str
  sanitized : Bool
  include_history : Bool
  source_dir : Str
  contents : List (Str × List Str)
  deriving DecidableEq

/-- The manifest `create_backup` builds: fixed `core` and `plugins`
categories, plus a `history` category exactly when `include_history`. -/
def buildManifest (env : BackupEnv) (include_history sanitize : Bool) :
    Manifest :=
  { version := ("1.0.0".toList)
    created_at := env.createdAt
    hostname := env.hostname
    username := env.username
    platform := env.platformName
    sanitized := sanitize
    include_history := include_history
    source_dir := env.claudeDirPath
    contents :=
      [ (("core".toList),
          [("CLAUDE.md".toList), ("settings.json".toList),
            ("skills/".toList)])
      , (("plugins".toList),
          [("plugins/installed_plugins.json".toList),
            ("plugins/known_marketplaces.json".toList)]) ] ++
      (if include_history then
        [(("history".toList),
          [("history.jsonl".toList), ("projects/".toList)])]
      else []) }

/-- Relative paths staged below the temporary directory, in the order the
code copies them; each source item is independently optional and silently
skipped when absent. -/
def stagedFiles (env : BackupEnv) (include_history : Bool) : List Str :=
  (if env.hasClaudeMd then [("CLAUDE.md".toList)] else []) ++
  (if env.hasSettings then [("settings.json".toList)] else []) ++
  env.skillsFiles.map (fun p => ("skills/".toList) ++ p) ++
  (if env.hasInstalledPlugins then
    [("plugins/installed_plugins.json".toList)] else []) ++
  (if env.hasKnownMarketplaces then
    [("plugins/known_marketplaces.json".toList)] else []) ++
  (if include_history then
    (if env.hasHistoryFile then [("history.jsonl".toList)] else []) ++
      env.projectsFiles.map (fun p => ("projects/".toList) ++ p)
  else [])

/-- Observable effects of one `create_backup` invocation. -/
structure RunResult where
  outcome : Outcome
  stagingCreated : Bool
  stagingRemains : Bool
  stagingPath : Option Str
  manifestWritten : Option Manifest
  archiveEntries : List Str
  deriving DecidableEq

/-- The `create_backup(output_path, include_history, sanitize)` pipeline of
`ccbackup.py`.  The source-root check precedes any staging-directory work
and returns `(False, message)`; afterwards the whole body runs inside
`try/.../finally: shutil.rmtree(temp_dir)` with no `except` clause, so an
I/O error at any later point removes the staging directory and then
propagates out of the function.  On success the function returns
`(True, str(output_path))` and the archive holds every staged file plus
`manifest.json`. -/
def create_backup (env : BackupEnv) (output_path : Str)
    (include_history sanitize : Bool) : RunResult :=
  if env.claudeDirExists = false then
    { outcome := .returned false
        (("Claude directory not found: ".toList) ++ env.claudeDirPath)
      stagingCreated := false
      stagingRemains := false
      stagingPath := none
      manifestWritten := none
      archiveEntries := [] }
  else if env.failPoint = .mkdirTemp then
    -- `temp_dir.mkdir` itself raised: nothing was created, the `finally`
    -- block finds no directory to remove, and the exception propagates.
    { outcome := .raised env.ioErrorMsg
      stagingCreated := false
      stagingRemains := false
      stagingPath := some (temp_dir env.timestamp)
      manifestWritten := none
      archiveEntries := [] }
  else if env.failPoint = .staging then
    { outcome := .raised env.ioErrorMsg
      stagingCreated := true
      stagingRemains := false
      stagingPath := some (temp_dir env.timestamp)
      manifestWritten := none
      archiveEntries := [] }
  else if env.failPoint = .writingManifest then
    { outcome := .raised env.ioErrorMsg
      stagingCreated := true
      stagingRemains := false
      stagingPath := some (temp_dir env.timestamp)
      manifestWritten := none
      archiveEntries := [] }
  else if env.failPoint = .compressing then
    -- the ZIP step raised (destination unwritable or disk error): the
    -- manifest was already written into the staging area, the partial
    -- archive is left as-is, cleanup runs, the exception propagates.
    { outcome := .raised env.ioErrorMsg
      stagingCreated := true
      stagingRemains := false
      stagingPath := some (temp_dir env.timestamp)
      manifestWritten := some (buildManifest env include_history sanitize)
      archiveEntries := [] }
  else
    { outcome := .returned true output_path
      stagingCreated := true
      stagingRemains := false
      stagingPath := some (temp_dir env.timestamp)
      manifestWritten := some (buildManifest env include_history sanitize)
      archiveEntries :=
        stagedFiles env include_history ++ [("manifest.json".toList)] }

/-- One invocation of the backup pipeline as seen from outside: an opaque
run identity (two different runs have different identities) and the
wall-clock second at which `create_backup` formed its timestamp. -/
structure Invocation where
  runId : Nat
  timestamp : Str
  deriving DecidableEq

/-- The staging directory an invocation uses, per lines 261-266 of
`ccbackup.py`: it depends on the timestamp alone. -/
def staging_dir_of (i : Invocation) : Str :=
  temp_dir i.timestamp

/-!
Supporting predicates and lemmas.
-/

/-- Python `needle in hay` for list-modelled strings: some suffix of `hay`
starts with `needle`. -/
def occursIn (needle : Str) : Str → Bool
  | [] => (stripLit needle []).isSome
  | c :: cs => (stripLit needle (c :: cs)).isSome || occursIn needle cs

/-- Predicate: `pattern.search(s)` succeeds somewhere in `s`: some suffix of `s` begins
with a match of the pattern. -/
def hasMatch (p : Pat) : Str → Bool
  | [] => false
  | c :: cs => (tryMatch p (c :: cs)).isSome || hasMatch p cs

/-- Some registry pattern matches somewhere in `t`. -/
def hasAnyMatch (t : Str) : Bool :=
  SENSITIVE_PATTERNS.any (fun p => hasMatch p t)

/-- The part of a key-value match span before the captured value: the quoted
key, whitespace, the colon, whitespace and the value's opening quote. -/
def kvPre (key w1 w2 : Str) : Str :=
  ('"' :: key ++ '"' :: w1 ++ ':' :: w2) ++ ['"']

/-- A full key-value match span `"KEY"w1:w2"v"`. -/
def kvSpan (key w1 w2 v : Str) : Str :=
  kvPre key w1 w2 ++ (v ++ ['"'])

/-- Does `s` begin with the literal `pre`? -/
def beginsWith (pre s : Str) : Bool :=
  (stripLit pre s).isSome

/-- Is an archive entry part of the optional history data: the history log
itself or anything below `projects/`? -/
def isHistoryEntry (e : Str) : Bool :=
  decide (e = ("history.jsonl".toList)) || beginsWith ("projects/".toList) e

/-- Does a written manifest's contents mapping carry a `history` key? -/
def manifestHasHistoryKey : Option Manifest → Bool
  | none => false
  | some m => m.contents.any (fun cat => decide (cat.1 = ("history".toList)))

/-- Discriminator for the `(False, message)` shape of a returned pair. -/
def returnedFailure : Outcome → Bool
  | .returned false _ => true
  | _ => false

/-- A concrete invocation environment whose compression step hits an
unrecoverable I/O error (destination unwritable / disk error). -/
def envCompressFail : BackupEnv :=
  { claudeDirExists := true
    claudeDirPath := ("/home/u/.claude".toList)
    hasClaudeMd := true
    hasSettings := true
    skillsFiles := []
    hasInstalledPlugins := false
    hasKnownMarketplaces := false
    hasHistoryFile := false
    projectsFiles := []
    hostname := ("host".toList)
    username := ("user".toList)
    platformName := ("Linux".toList)
    createdAt := ("2026-10-12T00:00:00".toList)
    timestamp := ("20261012_000000".toList)
    ioErrorMsg := ("Disk full".toList)
    failPoint := .compressing }

/-- A concrete invocation environment whose source root is absent. -/
def envNoSource : BackupEnv :=
  { claudeDirExists := false
    claudeDirPath := ("/home/u/.claude".toList)
    hasClaudeMd := false
    hasSettings := false
    skillsFiles := []
    hasInstalledPlugins := false
    hasKnownMarketplaces := false
    hasHistoryFile := false
    projectsFiles := []
    hostname := ("host".toList)
    username := ("user".toList)
    platformName := ("Linux".toList)
    createdAt := ("2026-10-12T00:00:00".toList)
    timestamp := ("20261012_000000".toList)
    ioErrorMsg := ("".toList)
    failPoint := .noFailure }

theorem stripLit_length {pre s r : Str} (h : stripLit pre s = some r) :
    r.length + pre.length = s.length := by
  induction pre generalizing s with
  | nil => cases s <;> simp_all [stripLit]
  | cons c cs ih =>
    cases s with
    | nil => simp [stripLit] at h
    | cons x xs =>
      simp only [stripLit] at h
      split at h
      · have := ih h
        simp [List.length_cons]
        omega
      · exact absurd h (by simp)

theorem length_dropWhile_le (p : Char → Bool) (l : Str) :
    (l.dropWhile p).length ≤ l.length := by
  have h := congrArg List.length (List.takeWhile_append_dropWhile p l)
  simp only [List.length_append] at h
  omega

theorem matchKV_rest_length {key s full v rest : Str}
    (h : matchKV key s = some (full, v, rest)) : rest.length < s.length := by
  unfold matchKV at h
  split at h
  · exact absurd h (by simp)
  · rename_i r1 hstrip
    have h1 : r1.length + (key.length + 2) = s.length := by
      have := stripLit_length hstrip
      simpa using this
    have h2 : (r1.dropWhile isWs).length ≤ r1.length :=
      length_dropWhile_le isWs r1
    split at h
    · rename_i r3 hr3
      have h3 : r3.length < r1.length := by
        have := congrArg List.length hr3
        simp at this
        omega
      split at h
      · rename_i r5 hr5
        have h4 : (r3.dropWhile isWs).length ≤ r3.length :=
          length_dropWhile_le isWs r3
        have h5 : r5.length < r3.length := by
          have := congrArg List.length hr5
          simp at this
          omega
        split at h
        · rename_i v' vs' rest' htake hdrop
          have h6 : (r5.dropWhile (fun c => !(c = '"'))).length ≤ r5.length :=
            length_dropWhile_le _ r5
          have h7 : rest'.length < r5.length := by
            have := congrArg List.length hdrop
            simp at this
            omega
          simp only [Option.some.injEq, Prod.mk.injEq] at h
          obtain ⟨-, -, hr⟩ := h
          subst hr
          omega
        · exact absurd h (by simp)
      · exact absurd h (by simp)
    · exact absurd h (by simp)

theorem matchTok_rest_length {s full rest : Str}
    (h : matchTok s = some (full, rest)) : rest.length < s.length := by
  unfold matchTok at h
  split at h
  · exact absurd h (by simp)
  · rename_i r1 hstrip
    have h1 : r1.length + 7 = s.length := by
      have := stripLit_length hstrip
      simpa using this
    split at h
    · exact absurd h (by simp)
    · rename_i c run hrun
      have h2 : (r1.dropWhile isTokChar).length ≤ r1.length :=
        length_dropWhile_le isTokChar r1
      simp only [Option.some.injEq, Prod.mk.injEq] at h
      obtain ⟨-, hr⟩ := h
      subst hr
      omega

theorem tryMatch_rest_length {p : Pat} {s full rest : Str} {g : Option Str}
    (h : tryMatch p s = some (full, g, rest)) : rest.length < s.length := by
  unfold tryMatch at h
  match p with
  | .kv key _ =>
    simp only at h
    split at h
    · rename_i full' v' rest' hm
      simp only [Option.some.injEq, Prod.mk.injEq] at h
      obtain ⟨-, -, hr⟩ := h
      subst hr
      exact matchKV_rest_length hm
    · exact absurd h (by simp)
  | .tok _ =>
    simp only at h
    split at h
    · rename_i full' rest' hm
      simp only [Option.some.injEq, Prod.mk.injEq] at h
      obtain ⟨-, -, hr⟩ := h
      subst hr
      exact matchTok_rest_length hm
    · exact absurd h (by simp)

theorem replaceFrom_fuel (n1 : Char) (ns repl : Str) :
    ∀ (f1 : Nat) (s : Str) (f2 : Nat), s.length ≤ f1 → s.length ≤ f2 →
      replaceFrom n1 ns repl f1 s = replaceFrom n1 ns repl f2 s := by
  intro f1
  induction f1 with
  | zero =>
    intro s f2 h1 _
    have : s = [] := List.eq_nil_of_length_eq_zero (by omega)
    subst this
    cases f2 <;> rfl
  | succ f ih =>
    intro s f2 h1 h2
    cases s with
    | nil => cases f2 <;> rfl
    | cons c cs =>
      cases f2 with
      | zero => simp at h2
      | succ g =>
        simp only [replaceFrom]
        split
        · rename_i rest hrest
          have hlen := stripLit_length hrest
          simp only [List.length_cons] at hlen h1 h2
          rw [ih rest g (by omega) (by omega)]
        · simp only [List.length_cons] at h1 h2
          rw [ih cs g (by omega) (by omega)]

/-- Unfolding equation for `replaceStr` on a non-empty text, with the fuel
already normalised away. -/
theorem replaceStr_cons (n1 : Char) (ns repl : Str) (c : Char) (cs : Str) :
    replaceStr (n1 :: ns) repl (c :: cs) =
      match stripLit (n1 :: ns) (c :: cs) with
      | some rest => repl ++ replaceStr (n1 :: ns) repl rest
      | none => c :: replaceStr (n1 :: ns) repl cs := by
  show replaceFrom n1 ns repl (cs.length + 1) (c :: cs) = _
  simp only [replaceFrom]
  split
  · rename_i rest hrest
    have hlen := stripLit_length hrest
    simp only [List.length_cons] at hlen
    rw [show replaceStr (n1 :: ns) repl rest =
          replaceFrom n1 ns repl rest.length rest from rfl]
    rw [replaceFrom_fuel n1 ns repl cs.length rest rest.length
      (by omega) (by omega)]
  · rw [show replaceStr (n1 :: ns) repl cs =
          replaceFrom n1 ns repl cs.length cs from rfl]

theorem subPatF_fuel (p : Pat) :
    ∀ (f1 : Nat) (s : Str) (f2 : Nat), s.length ≤ f1 → s.length ≤ f2 →
      subPatF p f1 s = subPatF p f2 s := by
  intro f1
  induction f1 with
  | zero =>
    intro s f2 h1 _
    have : s = [] := List.eq_nil_of_length_eq_zero (by omega)
    subst this
    cases f2 <;> rfl
  | succ f ih =>
    intro s f2 h1 h2
    cases s with
    | nil => cases f2 <;> rfl
    | cons c cs =>
      cases f2 with
      | zero => simp at h2
      | succ g =>
        simp only [subPatF]
        split
        · rename_i full gr rest hrest
          have hlen := tryMatch_rest_length hrest
          simp only [List.length_cons] at hlen h1 h2
          rw [ih rest g (by omega) (by omega)]
        · simp only [List.length_cons] at h1 h2
          rw [ih cs g (by omega) (by omega)]

theorem subPat_nil (p : Pat) : subPat p [] = [] := rfl

theorem subPat_cons (p : Pat) (c : Char) (cs : Str) :
    subPat p (c :: cs) =
      match tryMatch p (c :: cs) with
      | some (full, g, rest) =>
        replace_match (patName p) full g ++ subPat p rest
      | none => c :: subPat p cs := by
  show subPatF p (cs.length + 1) (c :: cs) = _
  simp only [subPatF]
  split
  · rename_i full gr rest hrest
    have hlen := tryMatch_rest_length hrest
    simp only [List.length_cons] at hlen
    rw [show subPat p rest = subPatF p rest.length rest from rfl]
    rw [subPatF_fuel p cs.length rest rest.length (by omega) (by omega)]
  · rfl

theorem findPatF_fuel (p : Pat) :
    ∀ (f1 : Nat) (s : Str) (f2 : Nat), s.length ≤ f1 → s.length ≤ f2 →
      findPatF p f1 s = findPatF p f2 s := by
  intro f1
  induction f1 with
  | zero =>
    intro s f2 h1 _
    have : s = [] := List.eq_nil_of_length_eq_zero (by omega)
    subst this
    cases f2 <;> rfl
  | succ f ih =>
    intro s f2 h1 h2
    cases s with
    | nil => cases f2 <;> rfl
    | cons c cs =>
      cases f2 with
      | zero => simp at h2
      | succ g =>
        simp only [findPatF]
        split
        · rename_i full gr rest hrest
          have hlen := tryMatch_rest_length hrest
          simp only [List.length_cons] at hlen h1 h2
          rw [ih rest g (by omega) (by omega)]
        · simp only [List.length_cons] at h1 h2
          rw [ih cs g (by omega) (by omega)]

theorem findPat_nil (p : Pat) : findPat p [] = [] := rfl

theorem findPat_cons (p : Pat) (c : Char) (cs : Str) :
    findPat p (c :: cs) =
      match tryMatch p (c :: cs) with
      | some (full, g, rest) => g.getD full :: findPat p rest
      | none => findPat p cs := by
  show findPatF p (cs.length + 1) (c :: cs) = _
  simp only [findPatF]
  split
  · rename_i full gr rest hrest
    have hlen := tryMatch_rest_length hrest
    simp only [List.length_cons] at hlen
    rw [show findPat p rest = findPatF p rest.length rest from rfl]
    rw [findPatF_fuel p cs.length rest rest.length (by omega) (by omega)]
  · rfl

theorem stripLit_eq_some {pre s r : Str} (h : stripLit pre s = some r) :
    s = pre ++ r := by
  induction pre generalizing s with
  | nil =>
    cases s <;> simp_all [stripLit]
  | cons c cs ih =>
    cases s with
    | nil => simp [stripLit] at h
    | cons x xs =>
      simp only [stripLit] at h
      split at h
      · rename_i hx
        subst hx
        simpa using ih h
      · exact absurd h (by simp)

theorem stripLit_append (pre r : Str) : stripLit pre (pre ++ r) = some r := by
  induction pre with
  | nil => rfl
  | cons c cs ih => simp [stripLit, ih]

/-- A pattern with no match anywhere leaves the text unchanged under
`re.sub`. -/
theorem subPat_of_no_match {p : Pat} :
    ∀ {t : Str}, hasMatch p t = false → subPat p t = t := by
  intro t
  induction t with
  | nil => intro _; exact subPat_nil p
  | cons c cs ih =>
    intro h
    simp only [hasMatch, Bool.or_eq_false_iff] at h
    rw [subPat_cons]
    cases hm : tryMatch p (c :: cs) with
    | some x => rw [hm] at h; simp at h
    | none => simp only [ih h.2]

theorem foldl_subPat_of_no_match :
    ∀ (ps : List Pat) (t : Str), (∀ p ∈ ps, hasMatch p t = false) →
      ps.foldl (fun s p => subPat p s) t = t := by
  intro ps
  induction ps with
  | nil => intro t _; rfl
  | cons p ps ih =>
    intro t h
    simp only [List.foldl_cons]
    rw [subPat_of_no_match (h p (by simp))]
    exact ih t (fun q hq => h q (by simp [hq]))

/-- Fold-with-append as a flat `bind`, used to reason about membership in
`detect_findings`. -/
theorem foldl_append_eq_bind {α β : Type} (f : α → List β) :
    ∀ (ps : List α) (acc : List β),
      ps.foldl (fun acc p => acc ++ f p) acc = acc ++ ps.flatMap f := by
  intro ps
  induction ps with
  | nil => intro acc; simp
  | cons p ps ih =>
    intro acc
    simp only [List.foldl_cons, List.flatMap_cons]
    rw [ih]
    simp

theorem detect_findings_eq_bind (content : Str) :
    detect_findings content =
      SENSITIVE_PATTERNS.flatMap
        (fun p => ((findPat p content).filter keepFinding).map
          (fun v => (patName p, v))) := by
  unfold detect_findings
  rw [foldl_append_eq_bind]
  simp

/-- The filter condition, unbundled into its three propositional parts. -/
theorem keepFinding_iff (v : Str) :
    keepFinding v = true ↔
      v ≠ [] ∧ v.head? ≠ some '<' ∧ v.getLast? ≠ some '>' := by
  simp [keepFinding, and_assoc]

/-- Membership in the detector's findings, unbundled. -/
theorem detect_findings_mem_iff (content : Str) (n v : Str) :
    (n, v) ∈ detect_findings content ↔
      (∃ p ∈ SENSITIVE_PATTERNS, patName p = n ∧ v ∈ findPat p content) ∧
        v ≠ [] ∧ v.head? ≠ some '<' ∧ v.getLast? ≠ some '>' := by
  rw [detect_findings_eq_bind]
  simp only [List.mem_flatMap, List.mem_map, List.mem_filter]
  constructor
  · rintro ⟨p, hp, a, ⟨ha, hkeep⟩, heq⟩
    have h1 : patName p = n := congrArg Prod.fst heq
    have h2 : a = v := congrArg Prod.snd heq
    subst h2
    exact ⟨⟨p, hp, h1, ha⟩, (keepFinding_iff a).mp hkeep⟩
  · rintro ⟨⟨p, hp, hn, hv⟩, hrest⟩
    exact ⟨p, hp, v, ⟨hv, (keepFinding_iff v).mpr hrest⟩, by rw [hn]⟩

/-- When `X ++ Y = v ++ r`, the needle `v` either fits inside `X` or
swallows all of `X`. -/
theorem prefix_split :
    ∀ (X : Str) {v Y r : Str}, X ++ Y = v ++ r →
      (∃ t, X = v ++ t) ∨ (∃ s, v = X ++ s) := by
  intro X
  induction X with
  | nil =>
    intro v Y r _
    exact Or.inr ⟨v, rfl⟩
  | cons x xs ih =>
    intro v Y r h
    cases v with
    | nil => exact Or.inl ⟨x :: xs, rfl⟩
    | cons w ws =>
      simp only [List.cons_append, List.cons.injEq] at h
      obtain ⟨hx, hxs⟩ := h
      subst hx
      rcases ih hxs with ⟨t, ht⟩ | ⟨s, hs⟩
      · exact Or.inl ⟨t, by rw [ht]; rfl⟩
      · exact Or.inr ⟨s, by rw [hs]; rfl⟩

theorem occursIn_of_stripLit {v s r : Str} (h : stripLit v s = some r) :
    occursIn v s = true := by
  cases s with
  | nil => simp [occursIn, h]
  | cons c cs => simp [occursIn, h]

/-- A barrier argument: no occurrence of the quote-free needle `v` can start
inside `A ++ [q]` when `v` does not occur in `A ++ [q]` itself, whatever
follows — an occurrence reaching past the end would have to contain `q`. -/
theorem stripLit_span_none {v : Str} (q : Char) (hq : q ∉ v)
    (A Y : Str) (hA : occursIn v (A ++ [q]) = false) :
    stripLit v ((A ++ [q]) ++ Y) = none := by
  cases hsl : stripLit v ((A ++ [q]) ++ Y) with
  | none => rfl
  | some r =>
    exfalso
    have heq := stripLit_eq_some hsl
    rcases prefix_split (A ++ [q]) heq with ⟨t, ht⟩ | ⟨s, hs⟩
    · have : stripLit v (A ++ [q]) = some t := by
        rw [ht]; exact stripLit_append v t
      rw [occursIn_of_stripLit this] at hA
      exact Bool.true_eq_false.mp hA
    · apply hq
      rw [hs]
      simp

/-- Core of key preservation: `str.replace(v, ph)` on a span
`pre ++ v ++ [q]` whose prefix `pre = A ++ [q]` is free of `v` and ends in
a character `q` outside `v` rewrites exactly the value, leaving the prefix
and the trailing `q` intact. -/
theorem replaceStr_span {v : Str} (ph : Str) (q : Char)
    (hv : v ≠ []) (hq : q ∉ v) :
    ∀ A : Str, occursIn v (A ++ [q]) = false →
      replaceStr v ph ((A ++ [q]) ++ (v ++ [q])) = (A ++ [q]) ++ (ph ++ [q]) := by
  obtain ⟨n1, ns, rfl⟩ : ∃ n1 ns, v = n1 :: ns := by
    cases v with
    | nil => exact absurd rfl hv
    | cons a as => exact ⟨a, as, rfl⟩
  have hqn : ¬(q = n1) := fun h => hq (h ▸ List.mem_cons_self n1 ns)
  have hlast : replaceStr (n1 :: ns) ph [q] = [q] := by
    rw [show ([q] : Str) = q :: [] from rfl, replaceStr_cons]
    simp only [stripLit, if_neg hqn]
    rfl
  have htail : replaceStr (n1 :: ns) ph ((n1 :: ns) ++ [q]) = ph ++ [q] := by
    rw [show ((n1 :: ns) ++ [q] : Str) = n1 :: (ns ++ [q]) from rfl]
    rw [replaceStr_cons]
    rw [show (n1 :: (ns ++ [q]) : Str) = (n1 :: ns) ++ [q] from rfl]
    rw [stripLit_append]
    show ph ++ replaceStr (n1 :: ns) ph [q] = ph ++ [q]
    rw [hlast]
  intro A
  induction A with
  | nil =>
    intro hA
    simp only [List.nil_append]
    rw [show (([q] : Str) ++ ((n1 :: ns) ++ [q])) = q :: ((n1 :: ns) ++ [q])
          from rfl]
    rw [replaceStr_cons]
    rw [show (q :: ((n1 :: ns) ++ [q]) : Str) = ([] ++ [q]) ++ ((n1 :: ns) ++ [q])
          from rfl]
    rw [stripLit_span_none q hq [] ((n1 :: ns) ++ [q]) hA]
    show q :: replaceStr (n1 :: ns) ph ((n1 :: ns) ++ [q]) = [q] ++ (ph ++ [q])
    rw [htail]
    rfl
  | cons a A' ih =>
    intro hA
    have hA' : occursIn (n1 :: ns) (A' ++ [q]) = false := by
      have h2 : occursIn (n1 :: ns) (a :: (A' ++ [q])) = false := hA
      simp only [occursIn, Bool.or_eq_false_iff] at h2
      exact h2.2
    rw [show (((a :: A') ++ [q]) ++ ((n1 :: ns) ++ [q]) : Str) =
          a :: ((A' ++ [q]) ++ ((n1 :: ns) ++ [q])) from rfl]
    rw [replaceStr_cons]
    rw [show (a :: ((A' ++ [q]) ++ ((n1 :: ns) ++ [q])) : Str) =
          ((a :: A') ++ [q]) ++ ((n1 :: ns) ++ [q]) from rfl]
    rw [stripLit_span_none q hq (a :: A') ((n1 :: ns) ++ [q]) hA]
    show a :: replaceStr (n1 :: ns) ph ((A' ++ [q]) ++ ((n1 :: ns) ++ [q])) =
      ((a :: A') ++ [q]) ++ (ph ++ [q])
    rw [ih hA']
    rfl

theorem takeWhile_all_append_cons {p : Char → Bool} :
    ∀ (xs : Str) (y : Char) (ys : Str), (∀ x ∈ xs, p x = true) → p y = false →
      (xs ++ y :: ys).takeWhile p = xs := by
  intro xs
  induction xs with
  | nil =>
    intro y ys _ hy
    simp [List.takeWhile_cons, hy]
  | cons x xs ih =>
    intro y ys hxs hy
    have hx : p x = true := hxs x (by simp)
    simp only [List.cons_append, List.takeWhile_cons, hx, if_true]
    rw [ih y ys (fun z hz => hxs z (by simp [hz])) hy]

theorem dropWhile_all_append_cons {p : Char → Bool} :
    ∀ (xs : Str) (y : Char) (ys : Str), (∀ x ∈ xs, p x = true) → p y = false →
      (xs ++ y :: ys).dropWhile p = y :: ys := by
  intro xs
  induction xs with
  | nil =>
    intro y ys _ hy
    simp [List.dropWhile_cons, hy]
  | cons x xs ih =>
    intro y ys hxs hy
    have hx : p x = true := hxs x (by simp)
    simp only [List.cons_append, List.dropWhile_cons, hx, if_true]
    exact ih y ys (fun z hz => hxs z (by simp [hz])) hy

/-- A `kvSpan` is literally what `matchKV` matches (and all it consumes)
when `w1, w2` are whitespace and the value is non-empty and quote-free:
the span shape below is exhaustive for the key-value regex. -/
theorem matchKV_kvSpan (key w1 w2 v rest : Str)
    (hw1 : ∀ c ∈ w1, isWs c = true) (hw2 : ∀ c ∈ w2, isWs c = true)
    (hv : v ≠ []) (hquote : '"' ∉ v) :
    matchKV key (kvSpan key w1 w2 v ++ rest) =
      some (kvSpan key w1 w2 v, v, rest) := by
  obtain ⟨v0, vs, rfl⟩ : ∃ v0 vs, v = v0 :: vs := by
    cases v with
    | nil => exact absurd rfl hv
    | cons a as => exact ⟨a, as, rfl⟩
  have e0 : kvSpan key w1 w2 (v0 :: vs) ++ rest =
      ('"' :: key ++ ['"']) ++
        (w1 ++ ':' :: (w2 ++ '"' :: ((v0 :: vs) ++ '"' :: rest))) := by
    simp [kvSpan, kvPre]
  have hcolon : isWs ':' = false := by decide
  have hquoteWs : isWs '"' = false := by decide
  have e2 : (w1 ++ ':' :: (w2 ++ '"' :: ((v0 :: vs) ++ '"' :: rest))).dropWhile
      isWs = ':' :: (w2 ++ '"' :: ((v0 :: vs) ++ '"' :: rest)) :=
    dropWhile_all_append_cons w1 ':' _ hw1 hcolon
  have e2t : (w1 ++ ':' :: (w2 ++ '"' :: ((v0 :: vs) ++ '"' :: rest))).takeWhile
      isWs = w1 :=
    takeWhile_all_append_cons w1 ':' _ hw1 hcolon
  have e3 : (w2 ++ '"' :: ((v0 :: vs) ++ '"' :: rest)).dropWhile isWs =
      '"' :: ((v0 :: vs) ++ '"' :: rest) :=
    dropWhile_all_append_cons w2 '"' _ hw2 hquoteWs
  have e3t : (w2 ++ '"' :: ((v0 :: vs) ++ '"' :: rest)).takeWhile isWs = w2 :=
    takeWhile_all_append_cons w2 '"' _ hw2 hquoteWs
  have hvp : ∀ c ∈ (v0 :: vs : Str), (!(c = '"')) = true := by
    intro c hc
    simp only [Bool.not_eq_true', decide_eq_false_iff_not]
    exact fun h => hquote (h ▸ hc)
  have hqp : (!('"' = '"')) = false := by decide
  have e4 : ((v0 :: vs) ++ '"' :: rest).takeWhile (fun c => !(c = '"')) =
      v0 :: vs :=
    takeWhile_all_append_cons (v0 :: vs) '"' rest hvp hqp
  have e5 : ((v0 :: vs) ++ '"' :: rest).dropWhile (fun c => !(c = '"')) =
      '"' :: rest :=
    dropWhile_all_append_cons (v0 :: vs) '"' rest hvp hqp
  unfold matchKV
  rw [e0, stripLit_append]
  simp only [e2, e2t, e3, e3t, e4, e5]
  simp [kvSpan, kvPre]

/-- Amended key preservation, at the `replace_match` closure of
`sanitize_content`: on a key-value match span whose captured value does not
also occur in the key/separator part of the span, the code rewrites exactly
the value to the placeholder and the surrounding structure survives.  (The
counterexample shows the extra occurrence condition is necessary: the code
calls `str.replace`, which rewrites every occurrence of the value in the
span.) -/
theorem kv_replace_preserves_key (key name w1 w2 v : Str)
    (hname : name ≠ ("anthropic_token".toList))
    (hv : v ≠ []) (hquote : '"' ∉ v)
    (hocc : occursIn v (kvPre key w1 w2) = false) :
    replace_match name (kvSpan key w1 w2 v) (some v) =
      kvPre key w1 w2 ++ (placeholder name ++ ['"']) := by
  unfold replace_match
  rw [if_neg hname]
  unfold kvPre at hocc
  unfold kvSpan kvPre
  exact replaceStr_span (placeholder name) '"' hv hquote _ hocc

theorem skills_entry_not_history (p : Str) :
    isHistoryEntry (("skills/".toList) ++ p) = false := by
  have hne : ("skills/".toList) ++ p ≠ ("history.jsonl".toList) := by
    rw [show ("skills/".toList) = 's' :: ("kills/".toList) from rfl,
        show ("history.jsonl".toList) = 'h' :: ("istory.jsonl".toList) from rfl]
    intro h
    rw [List.cons_append, List.cons.injEq] at h
    exact absurd h.1 (by decide)
  have hpre :
      beginsWith ("projects/".toList) (("skills/".toList) ++ p) = false := by
    unfold beginsWith
    rw [show ("skills/".toList) = 's' :: ("kills/".toList) from rfl,
        show ("projects/".toList) = 'p' :: ("rojects/".toList) from rfl,
        List.cons_append]
    simp only [stripLit]
    rw [if_neg (by decide : ¬('s' = 'p'))]
    rfl
  unfold isHistoryEntry
  rw [hpre, decide_eq_false hne]
  rfl

theorem mem_ite_singleton {e x : Str} {b : Bool}
    (h : e ∈ (if b then [x] else ([] : List Str))) : e = x := by
  cases b
  · simp at h
  · simpa using h

theorem stagedFiles_no_history (env : BackupEnv) :
    (stagedFiles env false).all (fun e => !isHistoryEntry e) = true := by
  rw [List.all_eq_true]
  intro e he
  unfold stagedFiles at he
  simp only [List.mem_append] at he
  rcases he with ((((h | h) | h) | h) | h) | h
  · rw [mem_ite_singleton h]; decide
  · rw [mem_ite_singleton h]; decide
  · obtain ⟨p, hp, rfl⟩ := List.mem_map.mp h
    rw [skills_entry_not_history p]
    rfl
  · rw [mem_ite_singleton h]; decide
  · rw [mem_ite_singleton h]; decide
  · simp at h

theorem buildManifest_no_history_key (env : BackupEnv) (s : Bool) :
    manifestHasHistoryKey (some (buildManifest env false s)) = false := by
  have hc : (decide (("core".toList) = ("history".toList))) = false := by decide
  have hp : (decide (("plugins".toList) = ("history".toList))) = false := by
    decide
  simp [manifestHasHistoryKey, buildManifest, hc, hp]

/-- Claim C1 (code bug): sanitizer idempotence fails.  On the input
`"token": "t"token": "w"` the first pass mangles the leading span (the
captured value `t` also occurs in the key, so `str.replace` rewrites the key
too) and, because the leftmost match consumed the quote that opens the
trailing `token": "w"`, the secret `w` survives the pass; the second pass
then rewrites it, so the second output differs from the first. -/
theorem c1_sanitize_not_idempotent :
    sanitize_content (("\"token\": \"t\"token\": \"w\"").toList) =
      (("\"<YOUR_TOKEN>oken\": \"<YOUR_TOKEN>\"token\": \"w\"").toList) ∧
    sanitize_content
        (sanitize_content (("\"token\": \"t\"token\": \"w\"").toList)) ≠
      sanitize_content (("\"token\": \"t\"token\": \"w\"").toList) :=
  ⟨by decide, by decide⟩

/-- Claim C2 (code bug): scanning sanitized output is not finding-free.  On
the sanitized form of `"token": "t"token": "w"` the detector still reports
the surviving secret `("token", "w")`, though the claim requires zero
findings. -/
theorem c2_sanitized_output_reflagged :
    detect_sensitive_in_file
        (some (sanitize_content (("\"token\": \"t\"token\": \"w\"").toList))) =
      [(("token".toList), ("w".toList))] := by
  decide

/-- Claim C3, counterexample: on `"token": "token"` the code rewrites the
key as well as the value — `str.replace` replaces every occurrence of the
captured value inside the matched span — so the output is not the
key-preserving `"token": "<YOUR_TOKEN>"`. -/
theorem c3_counterexample :
    sanitize_content (("\"token\": \"token\"").toList) =
      (("\"<YOUR_TOKEN>\": \"<YOUR_TOKEN>\"").toList) ∧
    sanitize_content (("\"token\": \"token\"").toList) ≠
      (("\"token\": \"<YOUR_TOKEN>\"").toList) :=
  ⟨by decide, by decide⟩

/-- Claim C3, amended: within a key-value match span, `sanitize_content`'s
`replace_match` replaces every occurrence of the captured value with the
placeholder; when the captured value does not also occur in the
key/separator part of the span, only the value changes and the surrounding
key and quote structure survive byte-identically. -/
theorem c3_kv_key_preserved (key name w1 w2 v : Str)
    (hname : name ≠ ("anthropic_token".toList))
    (hv : v ≠ []) (hquote : '"' ∉ v)
    (hocc : occursIn v (kvPre key w1 w2) = false) :
    replace_match name (kvSpan key w1 w2 v) (some v) =
      kvPre key w1 w2 ++ (placeholder name ++ ['"']) :=
  kv_replace_preserves_key key name w1 w2 v hname hv hquote hocc

/-- Witness for C3 at the spec's own example: the span
`"api_key": "sk-ant-ABC123"` becomes `"api_key": "<YOUR_API_KEY>"`. -/
theorem c3_kv_key_preserved_witness :
    replace_match ("api_key".toList)
        (kvSpan ("api_key".toList) [] [' '] ("sk-ant-ABC123".toList))
        (some ("sk-ant-ABC123".toList)) =
      (("\"api_key\": \"<YOUR_API_KEY>\"").toList) :=
  (c3_kv_key_preserved ("api_key".toList) ("api_key".toList) [] [' ']
    ("sk-ant-ABC123".toList) (by decide) (by decide) (by decide)
    (by decide)).trans (by decide)

/-- Claim C4, counterexample: on `"token": "<a"` the key-value pattern
captures the value `<a`, which starts with `<` and does not end with `>`;
the claim says it is still reported, but the detector's filter drops any
value that starts with `<`, so the detector reports nothing. -/
theorem c4_counterexample :
    findPat (Pat.kv ("token".toList) ("token".toList))
        (("\"token\": \"<a\"").toList) = [("<a".toList)] ∧
    (("<a".toList) : Str).head? = some '<' ∧
    (("<a".toList) : Str).getLast? ≠ some '>' ∧
    detect_sensitive_in_file (some (("\"token\": \"<a\"").toList)) = [] :=
  ⟨by decide, by decide, by decide, by decide⟩

/-- Claim C4, amended: a candidate value is reported iff it came out of some
registry pattern's `findall` and is non-empty and neither starts with `<`
nor ends with `>`; in particular a value that starts with `<` is excluded
even when it does not end with `>`. -/
theorem c4_detector_filter (content n v : Str) :
    (n, v) ∈ detect_sensitive_in_file (some content) ↔
      (∃ p ∈ SENSITIVE_PATTERNS, patName p = n ∧ v ∈ findPat p content) ∧
        v ≠ [] ∧ v.head? ≠ some '<' ∧ v.getLast? ≠ some '>' :=
  detect_findings_mem_iff content n v

/-- Claim C5, counterexample: when the compression step hits an
unrecoverable I/O error, `create_backup` does not return `(False, message)`
— there is no `except` clause — the exception propagates to the caller. -/
theorem c5_counterexample :
    returnedFailure
        (create_backup envCompressFail (("out.zip").toList) false false).outcome
        = false ∧
    (create_backup envCompressFail (("out.zip").toList) false false).outcome =
      Outcome.raised (("Disk full").toList) :=
  ⟨by decide, by decide⟩

/-- Claim C5, amended: an unrecoverable I/O error during compression (or an
unwritable destination, which raises in the same step) propagates out of
`create_backup` as an exception; the `finally` block still removes the
staging directory first.  The `(False, message)` return shape is reserved
for the missing source root. -/
theorem c5_compress_error_propagates (env : BackupEnv) (output_path : Str)
    (ih s : Bool) (hdir : env.claudeDirExists = true)
    (hfail : env.failPoint = FailPoint.compressing) :
    (create_backup env output_path ih s).outcome =
      Outcome.raised env.ioErrorMsg ∧
    (create_backup env output_path ih s).stagingRemains = false := by
  unfold create_backup
  rw [hdir, hfail]
  simp

/-- Witness for C5 at the concrete failing environment. -/
theorem c5_compress_error_propagates_witness :
    (create_backup envCompressFail (("out.zip").toList) false false).outcome =
      Outcome.raised envCompressFail.ioErrorMsg ∧
    (create_backup envCompressFail
        (("out.zip").toList) false false).stagingRemains = false :=
  c5_compress_error_propagates envCompressFail (("out.zip").toList) false false
    (by decide) (by decide)

/-- Claim C6: the cleanup guarantee.  Whatever the environment — success,
the handled missing-source failure, or an exception at any step of staging,
manifest writing or compression — no staging directory remains on disk when
the invocation exits. -/
theorem c6_staging_cleanup (env : BackupEnv) (output_path : Str)
    (ih s : Bool) :
    (create_backup env output_path ih s).stagingRemains = false := by
  unfold create_backup
  repeat' split
  all_goals rfl

/-- Claim C7: SourceNotFound atomicity.  When the source root is absent,
`create_backup` returns `(False, "Claude directory not found: …")` before
any staging work, and no staging directory is ever created. -/
theorem c7_source_not_found (env : BackupEnv) (output_path : Str)
    (ih s : Bool) (hdir : env.claudeDirExists = false) :
    (create_backup env output_path ih s).outcome =
      Outcome.returned false
        ((("Claude directory not found: ").toList) ++ env.claudeDirPath) ∧
    (create_backup env output_path ih s).stagingCreated = false ∧
    (create_backup env output_path ih s).stagingRemains = false := by
  unfold create_backup
  rw [hdir]
  simp

/-- Witness for C7 at a concrete environment without a source root. -/
theorem c7_source_not_found_witness :
    (create_backup envNoSource (("out.zip").toList) false false).outcome =
      Outcome.returned false
        ((("Claude directory not found: ").toList) ++
          envNoSource.claudeDirPath) ∧
    (create_backup envNoSource
        (("out.zip").toList) false false).stagingCreated = false ∧
    (create_backup envNoSource
        (("out.zip").toList) false false).stagingRemains = false :=
  c7_source_not_found envNoSource (("out.zip").toList) false false (by decide)

/-- Claim C8: manifest fidelity.  With `include_history = false`, any
manifest a `create_backup` run writes carries no `history` key in its
contents mapping, and no archive entry is `history.jsonl` or lies under
`projects/`. -/
theorem c8_manifest_fidelity (env : BackupEnv) (output_path : Str)
    (s : Bool) :
    manifestHasHistoryKey
        (create_backup env output_path false s).manifestWritten = false ∧
    (create_backup env output_path false s).archiveEntries.all
        (fun e => !isHistoryEntry e) = true := by
  have hman : isHistoryEntry ("manifest.json".toList) = false := by decide
  unfold create_backup
  repeat' split
  · exact ⟨rfl, rfl⟩
  · exact ⟨rfl, rfl⟩
  · exact ⟨rfl, rfl⟩
  · exact ⟨rfl, rfl⟩
  · exact ⟨buildManifest_no_history_key env s, rfl⟩
  · refine ⟨buildManifest_no_history_key env s, ?_⟩
    show (stagedFiles env false ++ [("manifest.json".toList)]).all
      (fun e => !isHistoryEntry e) = true
    rw [List.all_append]
    rw [stagedFiles_no_history env]
    decide

/-- Claim C9, counterexample: two distinct invocations that start within
the same wall-clock second receive the same staging directory — the name
`/tmp/ccbackup_{timestamp}` depends on the second-resolution timestamp
alone. -/
theorem c9_counterexample :
    (⟨0, ("20260101_000000".toList)⟩ : Invocation) ≠
      ⟨1, ("20260101_000000".toList)⟩ ∧
    staging_dir_of ⟨0, ("20260101_000000".toList)⟩ =
      staging_dir_of ⟨1, ("20260101_000000".toList)⟩ :=
  ⟨by decide, rfl⟩

/-- Claim C9, amended: staging directories of two invocations coincide
exactly when their second-resolution timestamps coincide; distinct seconds
give distinct directories, but invocations within one second share one. -/
theorem c9_staging_dir_iff_timestamp (i j : Invocation) :
    staging_dir_of i = staging_dir_of j ↔ i.timestamp = j.timestamp := by
  unfold staging_dir_of temp_dir
  constructor
  · intro h
    exact List.append_cancel_left h
  · intro h
    rw [h]

/-- Claim C10: the sanitizer is the identity on secret-free text — when no
registry pattern matches anywhere in the input, `sanitize_content` returns
the input unchanged. -/
theorem c10_sanitize_identity_on_clean (t : Str)
    (h : hasAnyMatch t = false) : sanitize_content t = t := by
  unfold sanitize_content
  apply foldl_subPat_of_no_match
  intro p hp
  cases hm : hasMatch p t with
  | false => rfl
  | true =>
    exfalso
    unfold hasAnyMatch at h
    rw [List.any_eq_true.mpr ⟨p, hp, hm⟩] at h
    exact Bool.true_eq_false.mp h

/-- Witness for C10 on a concrete secret-free text. -/
theorem c10_sanitize_identity_on_clean_witness :
    hasAnyMatch (("hello, backup world").toList) = false ∧
    sanitize_content (("hello, backup world").toList) =
      (("hello, backup world").toList) :=
  ⟨by decide, c10_sanitize_identity_on_clean _ (by decide)⟩

end CCBackup
